import Mathlib

/-!
Shallow embedding of the cotg binary decoding layer
(src/scripts/analysis/parse_apba_binary.py and
src/scripts/analysis/parse_apba_outcomes.py) and proofs about it.

Byte buffers are modelled as `List Nat`; every read of a byte goes
through `byteAt`/`sliceB`, which reduce the stored value mod 256, so a
list denotes the byte buffer obtained by truncating each entry to one
byte (for genuine byte data the mod is the identity).  Python text
operations are modelled on `List Char` and converted to `String` at the
record boundary, mirroring `bytes.decode("ascii", errors="ignore")`,
`str.strip`, `str.split(' ')`, `str.isprintable`.
-/

set_option maxRecDepth 100000

namespace Cotg

/-- One byte of a buffer: `data[i]` in Python (0 when out of range; all
in-range reads in the source are guarded).  The mod 256 records that the
Python value is a byte. -/
def byteAt (l : List Nat) (i : Nat) : Nat := l.getD i 0 % 256

/-- Python `data[a:b]`, as bytes (each entry reduced mod 256). -/
def sliceB (l : List Nat) (a b : Nat) : List Nat :=
  ((l.drop a).take (b - a)).map (· % 256)

/-- Python `bytes.decode("ascii", errors="ignore")`: bytes below 128 are kept in
order and become characters; bytes 128..255 are dropped. -/
def decodeAscii (bs : List Nat) : List Char :=
  (bs.filter (fun b => b < 128)).map Char.ofNat

/-- Python `str.isspace` restricted to ASCII characters: the characters
stripped by `str.strip()`. -/
def isPySpace (c : Char) : Bool :=
  c == ' ' || (9 ≤ c.toNat && c.toNat ≤ 13) || (28 ≤ c.toNat && c.toNat ≤ 31)

/-- Python `str.strip()` (no argument): remove leading and trailing
whitespace. -/
def pyStrip (l : List Char) : List Char :=
  ((l.dropWhile isPySpace).reverse.dropWhile isPySpace).reverse

/-- Python `str.split(' ')`: split on every single space character,
keeping empty pieces (`"".split(' ') == ['']`). -/
def pySplitSp : List Char → List (List Char)
  | [] => [[]]
  | c :: cs =>
    if c == ' ' then [] :: pySplitSp cs
    else
      match pySplitSp cs with
      | [] => [[c]]
      | t :: ts => (c :: t) :: ts

/-- The test `c.isprintable() or c == ' '` for ASCII characters (Python counts
0x20..0x7E as printable, so the explicit space test is redundant but is
kept as in the source). -/
def keepPrintable (c : Char) : Bool :=
  (32 ≤ c.toNat && c.toNat ≤ 126) || c == ' '

/-- One decoded player card: the dict built by
`APBAPlayerParser.parse_player_record`. -/
structure PlayerRecord where
  last_name : String
  first_name : String
  position : String
  grade : String
  bats : String
  card_number : String
  throws : String
  raw_ratings : List Nat
  batting_chart : List Nat
  position_string : String
deriving Repr, DecidableEq

/-- Embeds `APBAPlayerParser.parse_player_record` (parse_apba_binary.py lines
81-183).  Returns `none` exactly where the source returns `None`: slice
shorter than 146 bytes, last-name length byte outside 1..19, or trimmed
last name empty.  The `except` branch of the source is dead code (no
statement in the `try` block can raise once the length check passed), so
it has no counterpart here. -/
def parse_player_record (record : List Nat) : Option PlayerRecord :=
  if record.length < 146 then none
  else
    let last_name_len := byteAt record 0x00
    if 0 < last_name_len ∧ last_name_len < 20 then
      let last_name := pyStrip (decodeAscii (sliceB record 0x01 0x10))
      let first_name_len := byteAt record 0x10
      let first_name :=
        if 0 < first_name_len ∧ first_name_len < 20 then
          pyStrip (decodeAscii (sliceB record 0x11 0x20))
        else []
      if last_name = [] then none
      else
        let pos_string := pyStrip (decodeAscii (sliceB record 0x86 0x92))
        let parts := (pySplitSp pos_string).filter (fun t => t ≠ [])
        some
          { last_name := last_name.asString
            first_name := first_name.asString
            position := (parts.getD 0 "UNK".toList).asString
            grade := (parts.getD 1 "0".toList).asString
            bats := (parts.getD 2 "R".toList).asString
            card_number := (parts.getD 3 "0".toList).asString
            throws := (parts.getD 2 "R".toList).asString
            raw_ratings :=
              [byteAt record 0x20, byteAt record 0x21, byteAt record 0x22,
               byteAt record 0x23, byteAt record 0x24, byteAt record 0x25]
            batting_chart := sliceB record 0x30 0x80
            position_string := pos_string.asString }
    else none

/-- The scan loop of `APBAPlayerParser.analyze_structure` (lines 49-79)
from a given cursor: while the cursor is inside the buffer, break if
fewer than 150 bytes remain (the source's safety check), otherwise
decode the 200-byte slice at the cursor, keep a successful record, and
advance by the 146-byte stride.  The `except` branch of the source loop
is dead code (`parse_player_record` cannot raise). -/
def scanFrom (data : List Nat) (offset : Nat) : List PlayerRecord :=
  if offset < data.length then
    if data.length < offset + 150 then []
    else
      (parse_player_record ((data.drop offset).take 200)).toList
        ++ scanFrom data (offset + 146)
  else []
termination_by data.length - offset
decreasing_by simp_wf; omega

/-- Embeds `APBAPlayerParser.analyze_structure`: scan the whole buffer from
offset 0, collecting the successfully decoded records in offset order. -/
def analyze_structure (data : List Nat) : List PlayerRecord :=
  scanFrom data 0

/-- The scan loop of `APBAOutcomeParser.extract_message` (lines 151-153):
`end` starts at `offset` and advances while
`end < min(offset + max_len, len(data))` and `data[end] != 0`.  The fuel
argument is always called with `stop - e`, which bounds the iteration
count exactly, so the fuel never runs out while the loop guard holds. -/
def findEndGo (data : List Nat) (stop : Nat) : Nat → Nat → Nat
  | e, 0 => e
  | e, fuel + 1 =>
    if e < stop ∧ byteAt data e ≠ 0 then findEndGo data stop (e + 1) fuel else e

/-- The final value of `end` in `APBAOutcomeParser.extract_message`. -/
def findEnd (data : List Nat) (offset maxLen : Nat) : Nat :=
  findEndGo data (min (offset + maxLen) data.length) offset
    (min (offset + maxLen) data.length - offset)

/-- Embeds `APBAOutcomeParser.extract_message` (parse_apba_outcomes.py lines
145-163; the `max_len` parameter defaults to 200 in the source, and the
one call site that omits it is embedded passing 200 explicitly): empty
text when `offset >= len(data)`, otherwise the bytes
`data[offset:end]` decoded as ASCII (ignore), filtered to printable
characters and space, and stripped.  The source's `except` branch is dead
code (none of these operations can raise). -/
def extract_message (data : List Nat) (offset : Nat) (maxLen : Nat) : String :=
  if data.length ≤ offset then ""
  else
    (pyStrip ((decodeAscii (sliceB data offset (findEnd data offset maxLen))).filter
      keepPrintable)).asString

/-- Embeds `struct.unpack('<I', tbl[offset:offset+4])[0]`: the 4-byte
little-endian unsigned integer at `offset` (every call site guarantees
the four bytes are in range). -/
def read4 (tbl : List Nat) (offset : Nat) : Nat :=
  byteAt tbl offset + 256 * byteAt tbl (offset + 1)
    + 65536 * byteAt tbl (offset + 2) + 16777216 * byteAt tbl (offset + 3)

/-- One decoded outcome slot: the
`{'code': ..., 'offset': ..., 'message': ...}` dict of the source. -/
structure OutcomeEntry where
  code : Nat
  source_offset : Nat
  message : String
deriving Repr, DecidableEq

/-- The `while offset < len(tbl_data) - 4` loop of
`APBAOutcomeParser.parse_numeric_table` (lines 64-86): read the 4-byte
little-endian value at the cursor, skip the `0xFFFFFFFF` sentinel and
out-of-range values, otherwise resolve the message (default
`max_len = 200`) and emit an entry when the text is non-empty; the code
index advances on every slot, emitted or not. -/
def parseNumericFrom (tbl msg : List Nat) (offset idx : Nat) : List OutcomeEntry :=
  if offset < tbl.length - 4 then
    (let value := read4 tbl offset
     if value = 4294967295 then []
     else if value < msg.length then
       (let t := extract_message msg value 200
        if t ≠ "" then [OutcomeEntry.mk idx value t] else [])
     else []) ++ parseNumericFrom tbl msg (offset + 4) (idx + 1)
  else []
termination_by tbl.length - offset
decreasing_by simp_wf; omega

/-- Embeds `APBAOutcomeParser.parse_numeric_table` on the two file contents:
header size 0x20, no entry cap. -/
def parse_numeric_table (tbl msg : List Nat) : List OutcomeEntry :=
  parseNumericFrom tbl msg 0x20 0

/-- The `for i in range(max_outcomes)` loop of
`APBAOutcomeParser.parse_main_outcome_table` (lines 120-140): read the
4-byte little-endian value at the cursor, and when it is below the blob
length resolve the message with `max_len = 100` and emit an entry when
the text is non-empty and longer than 2 characters; the code index
advances on every slot. -/
def parseMainGo (tbl msg : List Nat) : Nat → Nat → Nat → List OutcomeEntry
  | _, _, 0 => []
  | offset, idx, count + 1 =>
    (let p := read4 tbl offset
     if p < msg.length then
       (let t := extract_message msg p 100
        if t ≠ "" ∧ 2 < t.length then [OutcomeEntry.mk idx p t] else [])
     else []) ++ parseMainGo tbl msg (offset + 4) (idx + 1) count

/-- Embeds `APBAOutcomeParser.parse_main_outcome_table` on the two file
contents: header size 0x10 and at most `min(200, (len(tbl) - 0x10) / 4)`
entries (Python floor division of a possibly negative number yields a
non-positive bound for tables shorter than the header, and `range` of a
non-positive number is empty, exactly as `Nat` subtraction gives 0
here). -/
def parse_main_outcome_table (tbl msg : List Nat) : List OutcomeEntry :=
  parseMainGo tbl msg 0x10 0 (min 200 ((tbl.length - 0x10) / 4))

/-- The decoder state `self.outcomes` of `APBAOutcomeParser`: the dict
only ever holds the keys `'numeric'` and `'main'` (absent before the
first run, hence the options). -/
structure Outcomes where
  numeric : Option (List OutcomeEntry)
  main : Option (List OutcomeEntry)
deriving Repr, DecidableEq

/-- Embeds `APBAOutcomeParser.parse_tables` (lines 22-33) with the mutable
`self.outcomes` dict made explicit: both keys are overwritten with
freshly computed tables and the resulting dict is returned, so the prior
state never reaches the output. -/
def parse_tables (st : Outcomes) (tblN msgN tblM msgM : List Nat) : Outcomes :=
  { st with
    numeric := some (parse_numeric_table tblN msgN)
    main := some (parse_main_outcome_table tblM msgM) }

/-- ASCII bytes of a literal string (used to build concrete test
records). -/
def strBytes (s : String) : List Nat := s.toList.map Char.toNat

/-- The synthetic LEIBOLD record of the spec's end-to-end example:
byte 0 = 7, "LEIBOLD" at 1..7, the name field space-padded, byte 0x10 =
4, "Nemo" at 0x11..0x14 space-padded, zero filler, and descriptor
"OF 3 L 07" space-padded at 0x86..0x91; 146 bytes in total. -/
def recC6 : List Nat :=
  [7] ++ strBytes "LEIBOLD" ++ List.replicate 8 32
    ++ [4] ++ strBytes "Nemo" ++ List.replicate 11 32
    ++ List.replicate 102 0
    ++ strBytes "OF 3 L 07" ++ List.replicate 3 32

/-- A valid 146-byte record whose descriptor region is `"A" TAB "B"`
followed by spaces: the space-split of the source yields the single
token `"A" TAB "B"`, while a whitespace-split would yield two tokens. -/
def recC7 : List Nat :=
  [5] ++ strBytes "SMITH" ++ List.replicate 10 32
    ++ [0] ++ List.replicate 15 32
    ++ List.replicate 102 0
    ++ [65, 9, 66] ++ List.replicate 9 32

/-- A numeric table of 37 bytes: 0x20 header bytes, one pointer slot
with value 16, one trailing byte so that the slot clears the source's
`offset < len - 4` guard. -/
def tblC4 : List Nat := List.replicate 32 0 ++ [16, 0, 0, 0, 0]

/-- A blob whose message at offset 16 is the single character `"X"`
followed by a zero terminator. -/
def msgC4 : List Nat := List.replicate 16 0 ++ [88, 0]

/-- A numeric table of exactly 0x20 header bytes plus one complete
4-byte pointer slot (value 16, length 36). -/
def tblC8 : List Nat := List.replicate 32 0 ++ [16, 0, 0, 0]

/-- A blob whose message at offset 16 is `"Single"` followed by a zero
terminator. -/
def msgC8 : List Nat :=
  List.replicate 16 0 ++ [83, 105, 110, 103, 108, 101, 0]

/-- A main table of 0x10 header bytes plus one pointer slot holding the
sentinel `0xFFFFFFFF`. -/
def tblC3 : List Nat := List.replicate 16 0 ++ [255, 255, 255, 255]

/-- A blob of 2^32 + 4 bytes, all the letter `A`: long enough that the
sentinel value 0xFFFFFFFF is a valid offset into it. -/
def blobC3 : List Nat := List.replicate 4294967300 65

/-- The record the LEIBOLD example decodes to. -/
def recC6player : PlayerRecord :=
  PlayerRecord.mk "LEIBOLD" "Nemo" "OF" "3" "L" "07" "L"
    [0, 0, 0, 0, 0, 0] (List.replicate 80 0) "OF 3 L 07"

/-- The token list the source builds from the descriptor region: bytes
0x86..0x91 decoded as ASCII (ignore), stripped, split on the space
character, empty pieces removed. -/
def descriptorTokens (record : List Nat) : List (List Char) :=
  (pySplitSp (pyStrip (decodeAscii (sliceB record 0x86 0x92)))).filter
    (fun t => t ≠ [])

lemma scanFrom_stop (data : List Nat) (offset : Nat)
    (h : data.length < offset + 150) : scanFrom data offset = [] := by
  rw [scanFrom]
  by_cases h2 : offset < data.length <;> simp [h, h2]

lemma scanFrom_step (data : List Nat) (offset : Nat)
    (h : offset + 150 ≤ data.length) :
    scanFrom data offset =
      (parse_player_record ((data.drop offset).take 200)).toList
        ++ scanFrom data (offset + 146) := by
  rw [scanFrom]
  have h2 : offset < data.length := by omega
  have h3 : ¬ data.length < offset + 150 := by omega
  simp [h2, h3]

lemma parseNumericFrom_stop (tbl msg : List Nat) (offset idx : Nat)
    (h : ¬ offset < tbl.length - 4) :
    parseNumericFrom tbl msg offset idx = [] := by
  rw [parseNumericFrom]
  simp [h]

lemma parseNumericFrom_step (tbl msg : List Nat) (offset idx : Nat)
    (h : offset < tbl.length - 4) :
    parseNumericFrom tbl msg offset idx =
      (if read4 tbl offset = 4294967295 then []
       else if read4 tbl offset < msg.length then
         (if extract_message msg (read4 tbl offset) 200 ≠ "" then
            [OutcomeEntry.mk idx (read4 tbl offset)
              (extract_message msg (read4 tbl offset) 200)]
          else [])
       else []) ++ parseNumericFrom tbl msg (offset + 4) (idx + 1) := by
  rw [parseNumericFrom, if_pos h]

lemma parseMainGo_zero (tbl msg : List Nat) (offset idx : Nat) :
    parseMainGo tbl msg offset idx 0 = [] := rfl

lemma parseMainGo_succ (tbl msg : List Nat) (offset idx n : Nat) :
    parseMainGo tbl msg offset idx (n + 1) =
      (if read4 tbl offset < msg.length then
         (if extract_message msg (read4 tbl offset) 100 ≠ "" ∧
              2 < (extract_message msg (read4 tbl offset) 100).length then
            [OutcomeEntry.mk idx (read4 tbl offset)
              (extract_message msg (read4 tbl offset) 100)]
          else [])
       else []) ++ parseMainGo tbl msg (offset + 4) (idx + 1) n := rfl

lemma parseMainGo_sound (tbl msg : List Nat) :
    ∀ count offset idx e, e ∈ parseMainGo tbl msg offset idx count →
      ∃ k, k < count ∧ e.code = idx + k ∧
        e.source_offset = read4 tbl (offset + 4 * k) ∧
        e.source_offset < msg.length ∧
        e.message = extract_message msg e.source_offset 100 ∧
        e.message ≠ "" ∧ 2 < e.message.length := by
  intro count
  induction count with
  | zero => intro offset idx e he; simp [parseMainGo_zero] at he
  | succ n ih =>
    intro offset idx e he
    rw [parseMainGo_succ] at he
    rcases List.mem_append.mp he with h | h
    · by_cases hp : read4 tbl offset < msg.length
      · rw [if_pos hp] at h
        by_cases ht : extract_message msg (read4 tbl offset) 100 ≠ "" ∧
            2 < (extract_message msg (read4 tbl offset) 100).length
        · rw [if_pos ht] at h
          rcases List.mem_singleton.mp h with rfl
          exact ⟨0, by omega, by simp, by simp, hp, rfl, ht.1, ht.2⟩
        · rw [if_neg ht] at h
          simp at h
      · rw [if_neg hp] at h
        simp at h
    · obtain ⟨k, hk, hcode, hoff, hlt, hmsg, hne, hgt⟩ := ih (offset + 4) (idx + 1) e h
      have ha : offset + 4 + 4 * k = offset + 4 * (k + 1) := by ring
      exact ⟨k + 1, by omega, by rw [hcode]; ring, by rw [hoff, ha], hlt, hmsg, hne, hgt⟩

lemma parseNumericFrom_sound (tbl msg : List Nat) :
    ∀ n offset idx e, tbl.length - offset ≤ n →
      e ∈ parseNumericFrom tbl msg offset idx →
      ∃ k, e.code = idx + k ∧
        e.source_offset = read4 tbl (offset + 4 * k) ∧
        e.source_offset ≠ 4294967295 ∧
        e.source_offset < msg.length ∧
        e.message = extract_message msg e.source_offset 200 ∧
        e.message ≠ "" ∧ offset + 4 * k + 4 < tbl.length := by
  intro n
  induction n with
  | zero =>
    intro offset idx e hn he
    rw [parseNumericFrom_stop _ _ _ _ (by omega)] at he
    simp at he
  | succ n ih =>
    intro offset idx e hn he
    by_cases hc : offset < tbl.length - 4
    · rw [parseNumericFrom_step _ _ _ _ hc] at he
      rcases List.mem_append.mp he with h | h
      · by_cases hs : read4 tbl offset = 4294967295
        · rw [if_pos hs] at h
          simp at h
        · rw [if_neg hs] at h
          by_cases hp : read4 tbl offset < msg.length
          · rw [if_pos hp] at h
            by_cases ht : extract_message msg (read4 tbl offset) 200 ≠ ""
            · rw [if_pos ht] at h
              rcases List.mem_singleton.mp h with rfl
              exact ⟨0, by simp, by simp, hs, hp, rfl, ht, by omega⟩
            · rw [if_neg ht] at h
              simp at h
          · rw [if_neg hp] at h
            simp at h
      · obtain ⟨k, hcode, hoff, hs, hlt, hmsg, hne, hin⟩ :=
          ih (offset + 4) (idx + 1) e (by omega) h
        have ha : offset + 4 + 4 * k = offset + 4 * (k + 1) := by ring
        exact ⟨k + 1, by rw [hcode]; ring, by rw [hoff, ha], hs, hlt, hmsg, hne,
          by omega⟩
    · rw [parseNumericFrom_stop _ _ _ _ hc] at he
      simp at he

lemma parseNumericFrom_complete (tbl msg : List Nat) :
    ∀ k offset idx, offset + 4 * k + 4 < tbl.length →
      read4 tbl (offset + 4 * k) ≠ 4294967295 →
      read4 tbl (offset + 4 * k) < msg.length →
      extract_message msg (read4 tbl (offset + 4 * k)) 200 ≠ "" →
      OutcomeEntry.mk (idx + k) (read4 tbl (offset + 4 * k))
          (extract_message msg (read4 tbl (offset + 4 * k)) 200)
        ∈ parseNumericFrom tbl msg offset idx := by
  intro k
  induction k with
  | zero =>
    intro offset idx h1 h2 h3 h4
    simp only [Nat.mul_zero, Nat.add_zero] at h1 h2 h3 h4 ⊢
    rw [parseNumericFrom_step _ _ _ _ (by omega)]
    refine List.mem_append_left _ ?_
    rw [if_neg h2, if_pos h3, if_pos h4]
    exact List.mem_singleton.mpr rfl
  | succ n ih =>
    intro offset idx h1 h2 h3 h4
    have ha : offset + 4 * (n + 1) = offset + 4 + 4 * n := by ring
    have hb : idx + (n + 1) = idx + 1 + n := by ring
    rw [ha] at h1 h2 h3 h4 ⊢
    rw [hb]
    rw [parseNumericFrom_step _ _ _ _ (by omega)]
    exact List.mem_append_right _ (ih (offset + 4) (idx + 1) h1 h2 h3 h4)

lemma findEndGo_ge (data : List Nat) (stop : Nat) :
    ∀ fuel e, e ≤ findEndGo data stop e fuel := by
  intro fuel
  induction fuel with
  | zero => intro e; simp [findEndGo]
  | succ n ih =>
    intro e
    rw [findEndGo]
    split
    · exact le_trans (Nat.le_succ e) (ih (e + 1))
    · exact le_refl e

lemma findEndGo_le (data : List Nat) (stop : Nat) :
    ∀ fuel e, e ≤ stop → findEndGo data stop e fuel ≤ stop := by
  intro fuel
  induction fuel with
  | zero => intro e he; simpa [findEndGo] using he
  | succ n ih =>
    intro e he
    rw [findEndGo]
    split
    · rename_i hc
      exact ih (e + 1) (by omega)
    · exact he

lemma findEndGo_nonzero (data : List Nat) (stop : Nat) :
    ∀ fuel e i, e ≤ i → i < findEndGo data stop e fuel → byteAt data i ≠ 0 := by
  intro fuel
  induction fuel with
  | zero => intro e i hei hlt; simp [findEndGo] at hlt; omega
  | succ n ih =>
    intro e i hei hlt
    rw [findEndGo] at hlt
    by_cases hc : e < stop ∧ byteAt data e ≠ 0
    · rw [if_pos hc] at hlt
      rcases Nat.eq_or_lt_of_le hei with he | he
      · exact he ▸ hc.2
      · exact ih (e + 1) i he hlt
    · rw [if_neg hc] at hlt
      omega

lemma findEndGo_zero (data : List Nat) (stop : Nat) :
    ∀ fuel e, stop ≤ e + fuel → findEndGo data stop e fuel < stop →
      byteAt data (findEndGo data stop e fuel) = 0 := by
  intro fuel
  induction fuel with
  | zero => intro e hf hlt; simp [findEndGo] at hlt ⊢; omega
  | succ n ih =>
    intro e hf hlt
    rw [findEndGo] at hlt ⊢
    by_cases hc : e < stop ∧ byteAt data e ≠ 0
    · rw [if_pos hc] at hlt ⊢
      exact ih (e + 1) (by omega) hlt
    · rw [if_neg hc] at hlt ⊢
      push_neg at hc
      exact hc (by omega)

lemma findEndGo_all_nonzero (data : List Nat) (stop : Nat) :
    ∀ fuel e, e ≤ stop → stop ≤ e + fuel →
      (∀ i, e ≤ i → i < stop → byteAt data i ≠ 0) →
      findEndGo data stop e fuel = stop := by
  intro fuel
  induction fuel with
  | zero => intro e h1 h2 _; simp [findEndGo]; omega
  | succ n ih =>
    intro e h1 h2 hnz
    rw [findEndGo]
    by_cases he : e < stop
    · rw [if_pos ⟨he, hnz e (le_refl e) he⟩]
      exact ih (e + 1) (by omega) (by omega) (fun i hi => hnz i (by omega))
    · rw [if_neg (fun hc => he hc.1)]
      omega

lemma findEndGo_congr (d1 d2 : List Nat) (stop : Nat)
    (hb : ∀ i, i < stop → byteAt d1 i = byteAt d2 i) :
    ∀ fuel e, findEndGo d1 stop e fuel = findEndGo d2 stop e fuel := by
  intro fuel
  induction fuel with
  | zero => intro e; simp [findEndGo]
  | succ n ih =>
    intro e
    rw [findEndGo, findEndGo]
    by_cases he : e < stop
    · rw [hb e he]
      split
      · exact ih (e + 1)
      · rfl
    · rw [if_neg (fun hc => he hc.1), if_neg (fun hc => he hc.1)]

lemma byteAt_take (l : List Nat) (n i : Nat) (h : i < n) :
    byteAt (l.take n) i = byteAt l i := by
  simp [byteAt, List.getD_eq_getElem?_getD, List.getElem?_take_of_lt h]

lemma sliceB_take (l : List Nat) (n a b : Nat) (h : b ≤ n) :
    sliceB (l.take n) a b = sliceB l a b := by
  unfold sliceB
  rw [List.drop_take, List.take_take]
  have : (b - a) ⊓ (n - a) = b - a := by omega
  rw [this]

lemma byteAt_replicate (n a i : Nat) (h : i < n) :
    byteAt (List.replicate n a) i = a % 256 := by
  simp [byteAt, List.getD_eq_getElem?_getD, List.getElem?_replicate, h]

lemma findEnd_take (data : List Nat) (offset maxLen : Nat) :
    findEnd (data.take (offset + maxLen)) offset maxLen =
      findEnd data offset maxLen := by
  unfold findEnd
  have hlen : (data.take (offset + maxLen)).length =
      min (offset + maxLen) data.length := by simp
  rw [hlen]
  have hstop : min (offset + maxLen) (min (offset + maxLen) data.length) =
      min (offset + maxLen) data.length := by omega
  rw [hstop]
  exact findEndGo_congr _ _ _
    (fun i hi => byteAt_take data (offset + maxLen) i (by omega)) _ _

lemma extract_message_take (data : List Nat) (offset maxLen : Nat) :
    extract_message data offset maxLen =
      extract_message (data.take (offset + maxLen)) offset maxLen := by
  unfold extract_message
  have hlen : (data.take (offset + maxLen)).length =
      min (offset + maxLen) data.length := by simp
  by_cases h0 : offset < (data.take (offset + maxLen)).length
  · have h1 : ¬ data.length ≤ offset := by rw [hlen] at h0; omega
    have h2 : ¬ (data.take (offset + maxLen)).length ≤ offset := by omega
    rw [if_neg h1, if_neg h2]
    have hle : findEnd data offset maxLen ≤ offset + maxLen := by
      refine le_trans (findEndGo_le data _ _ offset ?_) (Nat.min_le_left _ _)
      rw [hlen] at h0; omega
    rw [findEnd_take, sliceB_take data (offset + maxLen) offset _ hle]
  · have h2 : (data.take (offset + maxLen)).length ≤ offset := by omega
    rw [if_pos h2]
    by_cases h1 : data.length ≤ offset
    · rw [if_pos h1]
    · rw [if_neg h1]
      have hml : maxLen = 0 := by rw [hlen] at h0; omega
      subst hml
      have hstop : min (offset + 0) data.length = offset := by omega
      have hfe : findEnd data offset 0 = offset := by
        unfold findEnd
        rw [hstop]
        simp [findEndGo]
      rw [hfe]
      simp [sliceB, decodeAscii, pyStrip]
      rfl

/-- Claim C5: MessageResolver (`extract_message`) returns empty text when
`offset >= len(blob)`; the scan cursor starts at `offset`, never passes
`offset + max_len` or the blob end, stops at the first zero byte or at
that bound, and the result is unchanged when all bytes at indices
`>= offset + max_len` are removed (so no such byte is read or
returned). -/
theorem c5_resolver_bounds (data : List Nat) (offset maxLen : Nat) :
    (data.length ≤ offset → extract_message data offset maxLen = "") ∧
    offset ≤ findEnd data offset maxLen ∧
    (offset ≤ data.length → findEnd data offset maxLen ≤ offset + maxLen ∧
      findEnd data offset maxLen ≤ data.length) ∧
    (∀ i, offset ≤ i → i < findEnd data offset maxLen → byteAt data i ≠ 0) ∧
    (findEnd data offset maxLen < min (offset + maxLen) data.length →
      byteAt data (findEnd data offset maxLen) = 0) ∧
    extract_message data offset maxLen =
      extract_message (data.take (offset + maxLen)) offset maxLen := by
  refine ⟨?_, ?_, ?_, ?_, ?_, extract_message_take data offset maxLen⟩
  · intro h
    unfold extract_message
    rw [if_pos h]
  · exact findEndGo_ge data _ _ offset
  · intro h
    have := findEndGo_le data (min (offset + maxLen) data.length)
      (min (offset + maxLen) data.length - offset) offset (by omega)
    unfold findEnd
    omega
  · exact fun i hi => findEndGo_nonzero data _ _ offset i hi
  · exact findEndGo_zero data _ _ offset (by omega)

/-- Claim C5 witness: the bounds evaluated at concrete blobs — an
out-of-range offset resolves to empty text, and a byte strictly before
the final scan position is non-zero. -/
theorem c5_witness :
    extract_message [65] 5 7 = "" ∧ byteAt [65, 66, 0, 67] 1 ≠ 0 :=
  ⟨(c5_resolver_bounds [65] 5 7).1 (by decide),
   (c5_resolver_bounds [65, 66, 0, 67] 1 10).2.2.2.1 1 (le_refl 1) (by decide)⟩

/-- Claim C1: `parse_player_record` returns no record exactly when the
slice is shorter than the 146-byte stride, or the last-name length byte
at offset 0 is outside 1..19, or the decoded last name is empty after
trimming; and every slice of at least 146 bytes with length byte in
1..19 and non-empty trimmed last name yields a record. -/
theorem c1_decode_reject_iff (record : List Nat) :
    (parse_player_record record = none ↔
      record.length < 146 ∨ ¬(0 < byteAt record 0 ∧ byteAt record 0 < 20) ∨
        pyStrip (decodeAscii (sliceB record 1 16)) = []) ∧
    (146 ≤ record.length → 0 < byteAt record 0 → byteAt record 0 < 20 →
      pyStrip (decodeAscii (sliceB record 1 16)) ≠ [] →
      (parse_player_record record).isSome = true) := by
  unfold parse_player_record
  by_cases h1 : record.length < 146
  · simp [h1]
  · by_cases h2 : 0 < byteAt record 0 ∧ byteAt record 0 < 20
    · by_cases h3 : pyStrip (decodeAscii (sliceB record 1 16)) = []
      · simp [h1, h2, h3]
      · simp [h1, h2, h3]
    · simp [h1, h2]
      intro
      omega

/-- Claim C1 witness: the LEIBOLD record satisfies all acceptance
hypotheses and is decoded to a record. -/
theorem c1_witness : (parse_player_record recC6).isSome = true :=
  (c1_decode_reject_iff recC6).2 (by decide) (by decide) (by decide) (by decide)

/-- Claim C6: the synthetic 146-byte LEIBOLD record (byte 0 = 7,
"LEIBOLD" space-padded, byte 0x10 = 4, "Nemo" space-padded, descriptor
"OF 3 L 07") decodes to a record with last_name "LEIBOLD", first_name
"Nemo", position "OF", grade "3", bats "L", card_number "07", and
throws "L" (equal to bats). -/
theorem c6_leibold_example :
    parse_player_record recC6 = some recC6player := by
  decide

/-- Claim C9: decoding is deterministic and, with the mutable
`self.outcomes` dict modelled as explicit state, the output of
`parse_tables` does not depend on the prior state and repeating a run
reproduces it (both keys are overwritten on every run); the player
record decoder is a pure function of its slice.  (That no decode mutates
its input bytes is trivial in this embedding: all inputs are immutable
values, as Python `bytes` are.) -/
theorem c9_pure_deterministic (st1 st2 : Outcomes) (a b c d r : List Nat) :
    parse_tables st1 a b c d = parse_tables st2 a b c d ∧
      parse_tables (parse_tables st1 a b c d) a b c d = parse_tables st1 a b c d ∧
      parse_player_record r = parse_player_record r ∧
      analyze_structure r = analyze_structure r :=
  ⟨rfl, rfl, rfl, rfl⟩

lemma byteAt_take_eq (r1 r2 : List Nat) (h : r1.take 146 = r2.take 146)
    (i : Nat) (hi : i < 146) : byteAt r1 i = byteAt r2 i := by
  rw [← byteAt_take r1 146 i hi, ← byteAt_take r2 146 i hi, h]

lemma sliceB_take_eq (r1 r2 : List Nat) (h : r1.take 146 = r2.take 146)
    (a b : Nat) (hb : b ≤ 146) : sliceB r1 a b = sliceB r2 a b := by
  rw [← sliceB_take r1 146 a b hb, ← sliceB_take r2 146 a b hb, h]

/-- Claim C10: decoding one player record depends only on the first 146
bytes of the slice: two slices of length at least 146 that agree on
bytes 0..145 decode identically (every byte the decoder reads lies below
offset 0x92 = 146). -/
theorem c10_first_146_bytes (r1 r2 : List Nat) (h1 : 146 ≤ r1.length)
    (h2 : 146 ≤ r2.length) (h : r1.take 146 = r2.take 146) :
    parse_player_record r1 = parse_player_record r2 := by
  unfold parse_player_record
  have hn1 : ¬ r1.length < 146 := by omega
  have hn2 : ¬ r2.length < 146 := by omega
  rw [if_neg hn1, if_neg hn2,
    byteAt_take_eq r1 r2 h 0 (by norm_num),
    byteAt_take_eq r1 r2 h 16 (by norm_num),
    byteAt_take_eq r1 r2 h 32 (by norm_num),
    byteAt_take_eq r1 r2 h 33 (by norm_num),
    byteAt_take_eq r1 r2 h 34 (by norm_num),
    byteAt_take_eq r1 r2 h 35 (by norm_num),
    byteAt_take_eq r1 r2 h 36 (by norm_num),
    byteAt_take_eq r1 r2 h 37 (by norm_num),
    sliceB_take_eq r1 r2 h 1 16 (by norm_num),
    sliceB_take_eq r1 r2 h 17 32 (by norm_num),
    sliceB_take_eq r1 r2 h 134 146 (by norm_num),
    sliceB_take_eq r1 r2 h 48 128 (by norm_num)]

/-- Claim C10 witness: the LEIBOLD record extended by unequal junk bytes
beyond offset 146 decodes identically. -/
theorem c10_witness :
    parse_player_record (recC6 ++ [0]) = parse_player_record (recC6 ++ [99, 98]) :=
  c10_first_146_bytes (recC6 ++ [0]) (recC6 ++ [99, 98])
    (by decide) (by decide) (by decide)

/-- Claim C2 counterexample: a buffer holding exactly one complete, valid
146-byte record (so at least the minimum decodable bytes remain at
offset 0) yields an empty scan, because the source's stop check is
`offset + 150 > len(data)`, not `offset + 146 > len(data)`. -/
theorem c2_counterexample :
    146 ≤ recC6.length ∧ (parse_player_record recC6).isSome = true ∧
      analyze_structure recC6 = [] :=
  ⟨by decide, by decide, by
    rw [analyze_structure]; exact scanFrom_stop recC6 0 (by decide)⟩

/-- Claim C2 (amended): the scan walks from offset 0 in 146-byte strides
over 200-byte slices, but stops exactly when fewer than 150 bytes (the
source's safety margin, not the 146-byte stride) remain before the
buffer end; boundary safety and the empty result for buffers shorter
than one stride still hold. -/
theorem c2_amended_scan (data : List Nat) (offset : Nat) :
    (data.length < offset + 150 → scanFrom data offset = []) ∧
    (offset + 150 ≤ data.length →
      scanFrom data offset =
        (parse_player_record ((data.drop offset).take 200)).toList
          ++ scanFrom data (offset + 146)) ∧
    analyze_structure data = scanFrom data 0 ∧
    (data.length < 146 → analyze_structure data = []) :=
  ⟨scanFrom_stop data offset, scanFrom_step data offset, rfl,
   fun h => by rw [analyze_structure]; exact scanFrom_stop data 0 (by omega)⟩

/-- Claim C2 (amended) witness: a 10-byte buffer scans to the empty
sequence, and on a 292-byte buffer the scan decodes the slice at offset
0 and continues at offset 146. -/
theorem c2_witness :
    analyze_structure (List.replicate 10 0) = [] ∧
    scanFrom (recC6 ++ recC6) 0 =
      (parse_player_record (((recC6 ++ recC6).drop 0).take 200)).toList
        ++ scanFrom (recC6 ++ recC6) 146 :=
  ⟨(c2_amended_scan (List.replicate 10 0) 0).2.2.2 (by decide),
   (c2_amended_scan (recC6 ++ recC6) 0).2.1 (by decide)⟩

/-- Claim C4 counterexample: the numeric configuration emits an entry
whose resolved text "X" has length 1, not greater than 2 — the
length-greater-than-2 filter exists only in the main configuration. -/
theorem c4_counterexample :
    parse_numeric_table tblC4 msgC4 = [OutcomeEntry.mk 0 16 "X"] ∧
      ¬ 2 < ("X" : String).length := by
  constructor
  · rw [parse_numeric_table, parseNumericFrom_step tblC4 msgC4 32 0 (by decide),
        parseNumericFrom_stop tblC4 msgC4 36 1 (by decide)]
    decide
  · decide

/-- Claim C8 counterexample: a numeric table whose length is exactly the
0x20-byte header plus one complete 4-byte slot: the slot holds a valid
in-range pointer to a long message, yet the scan emits nothing, because
the loop guard `offset < len(tbl) - 4` already fails at the final
complete slot. -/
theorem c8_counterexample :
    tblC8.length = 32 + 4 ∧ read4 tblC8 32 = 16 ∧ 16 < msgC8.length ∧
      2 < (extract_message msgC8 16 200).length ∧
      parse_numeric_table tblC8 msgC8 = [] := by
  refine ⟨by decide, by decide, by decide, by decide, ?_⟩
  rw [parse_numeric_table]
  exact parseNumericFrom_stop tblC8 msgC8 32 0 (by decide)

/-- Claim C7 counterexample: a record whose descriptor region is
`"A" TAB "B"` (whitespace-separated tokens "A" and "B") is decoded with
position `"A" TAB "B"` and grade "0", not position "A" and grade "B":
the source splits on the space character only, not on whitespace. -/
theorem c7_counterexample :
    (parse_player_record recC7).map (fun p => (p.position, p.grade)) =
        some ("A\tB", "0") ∧
      ("A\tB" : String) ≠ "A" := by
  exact ⟨by decide, by decide⟩

/-- Claim C7 (amended): for every accepted record, the descriptor region
(bytes 0x86..0x91, decoded, trimmed, split on the space character —
not on general whitespace — with empty pieces discarded) is assigned
positionally and verbatim: token 0 to position, 1 to grade, 2 to bats,
3 to card_number, and each missing token takes its documented default
("UNK", "0", "R", "0"). -/
theorem c7_amended_positional (record : List Nat) (p : PlayerRecord)
    (hp : parse_player_record record = some p) :
    p.position = ((descriptorTokens record).getD 0 "UNK".toList).asString ∧
    p.grade = ((descriptorTokens record).getD 1 "0".toList).asString ∧
    p.bats = ((descriptorTokens record).getD 2 "R".toList).asString ∧
    p.card_number = ((descriptorTokens record).getD 3 "0".toList).asString ∧
    (descriptorTokens record = [] → p.position = "UNK") ∧
    ((descriptorTokens record).length ≤ 1 → p.grade = "0") ∧
    ((descriptorTokens record).length ≤ 2 → p.bats = "R") ∧
    ((descriptorTokens record).length ≤ 3 → p.card_number = "0") := by
  simp only [parse_player_record] at hp
  by_cases h1 : record.length < 146
  · simp [h1] at hp
  · rw [if_neg h1] at hp
    by_cases h2 : 0 < byteAt record 0 ∧ byteAt record 0 < 20
    · rw [if_pos h2] at hp
      by_cases h3 : pyStrip (decodeAscii (sliceB record 1 16)) = []
      · simp [h3] at hp
      · rw [if_neg h3] at hp
        injection hp with hp
        subst hp
        refine ⟨rfl, rfl, rfl, rfl, ?_, ?_, ?_, ?_⟩
        · intro h
          show ((descriptorTokens record).getD 0 "UNK".toList).asString = "UNK"
          rw [h]
          decide
        · intro h
          show ((descriptorTokens record).getD 1 "0".toList).asString = "0"
          rw [List.getD_eq_getElem?_getD, List.getElem?_eq_none h]
          decide
        · intro h
          show ((descriptorTokens record).getD 2 "R".toList).asString = "R"
          rw [List.getD_eq_getElem?_getD, List.getElem?_eq_none h]
          decide
        · intro h
          show ((descriptorTokens record).getD 3 "0".toList).asString = "0"
          rw [List.getD_eq_getElem?_getD, List.getElem?_eq_none h]
          decide
    · rw [if_neg h2] at hp
      simp at hp

/-- Claim C7 (amended) witness: the positional assignment evaluated on
the LEIBOLD record, whose descriptor tokens are "OF", "3", "L", "07". -/
theorem c7_witness :
    recC6player.position = ((descriptorTokens recC6).getD 0 "UNK".toList).asString :=
  (c7_amended_positional recC6 recC6player (by decide)).1

/-- Claim C4 (amended): in the main configuration (header 0x10, cap 200,
`max_len` 100) an entry is emitted only if the resolved, sanitized text
has length strictly greater than 2; in the numeric configuration
(header 0x20, no cap, `max_len` 200) the emission condition is only that
the text is non-empty, so the two configurations differ in this
filtering behaviour, not merely in configuration values. -/
theorem c4_amended_filters (tbl msg : List Nat) :
    (∀ e ∈ parse_main_outcome_table tbl msg,
      2 < e.message.length ∧ e.message = extract_message msg e.source_offset 100) ∧
    (∀ e ∈ parse_numeric_table tbl msg,
      e.message ≠ "" ∧ e.message = extract_message msg e.source_offset 200) := by
  constructor
  · intro e he
    obtain ⟨k, _, _, _, _, hmsg, _, hgt⟩ := parseMainGo_sound tbl msg _ _ _ e he
    exact ⟨hgt, hmsg⟩
  · intro e he
    obtain ⟨k, _, _, _, _, hmsg, hne, _⟩ :=
      parseNumericFrom_sound tbl msg tbl.length _ _ e (by omega) he
    exact ⟨hne, hmsg⟩

/-- Claim C4 (amended) witness: the numeric-configuration entry emitted
for the one-slot table (message "X") is non-empty and equals the
resolved text. -/
theorem c4_witness :
    (OutcomeEntry.mk 0 16 "X").message ≠ "" ∧
      (OutcomeEntry.mk 0 16 "X").message = extract_message msgC4 16 200 := by
  have hmem : OutcomeEntry.mk 0 16 "X" ∈ parse_numeric_table tblC4 msgC4 := by
    rw [parse_numeric_table, parseNumericFrom_step tblC4 msgC4 32 0 (by decide),
      parseNumericFrom_stop tblC4 msgC4 36 1 (by decide)]
    decide
  exact (c4_amended_filters tblC4 msgC4).2 _ hmem

/-- Claim C8 (amended): the numeric configuration iterates from offset
0x20 in 4-byte slots under the loop guard `offset < len(tbl) - 4`: every
emitted entry comes from a slot with `offset + 4 < len(tbl)` (so the
final complete slot of a table whose length is exactly the header plus a
multiple of 4 is never read), and conversely every slot strictly inside
that bound whose value is neither the sentinel nor out of range and
whose message is non-empty produces its entry. -/
theorem c8_amended_iteration (tbl msg : List Nat) (k : Nat) :
    (∀ e ∈ parse_numeric_table tbl msg, 32 + 4 * e.code + 4 < tbl.length) ∧
    (32 + 4 * k + 4 < tbl.length →
      read4 tbl (32 + 4 * k) ≠ 4294967295 →
      read4 tbl (32 + 4 * k) < msg.length →
      extract_message msg (read4 tbl (32 + 4 * k)) 200 ≠ "" →
      OutcomeEntry.mk k (read4 tbl (32 + 4 * k))
          (extract_message msg (read4 tbl (32 + 4 * k)) 200)
        ∈ parse_numeric_table tbl msg) := by
  constructor
  · intro e he
    obtain ⟨j, hcode, _, _, _, _, _, hin⟩ :=
      parseNumericFrom_sound tbl msg tbl.length 32 0 e (by omega) he
    omega
  · intro h1 h2 h3 h4
    have hc := parseNumericFrom_complete tbl msg k 32 0 h1 h2 h3 h4
    simpa [parse_numeric_table] using hc

/-- Claim C8 (amended) witness: on the 37-byte table the slot at offset
0x20 passes the guard and its entry is emitted. -/
theorem c8_witness :
    OutcomeEntry.mk 0 (read4 tblC4 (32 + 4 * 0))
        (extract_message msgC4 (read4 tblC4 (32 + 4 * 0)) 200)
      ∈ parse_numeric_table tblC4 msgC4 :=
  (c8_amended_iteration tblC4 msgC4 0).2 (by decide) (by decide) (by decide)
    (by decide)

/-- Claim C3 (amended): every emitted entry, in both configurations,
satisfies `source_offset < length(blob)`, and a slot whose value is out
of range produces no entry; a sentinel slot produces no entry in the
numeric configuration unconditionally, and in the main configuration
whenever the blob is shorter than 2^32 bytes (the main loop has no
sentinel test of its own — the sentinel is only caught by the range
check, which a blob of at least 2^32 bytes defeats). -/
theorem c3_amended_pointers (tbl msg : List Nat) (i : Nat) :
    (∀ e ∈ parse_numeric_table tbl msg, e.source_offset < msg.length) ∧
    (∀ e ∈ parse_main_outcome_table tbl msg, e.source_offset < msg.length) ∧
    (read4 tbl (32 + 4 * i) = 4294967295 →
      ∀ e ∈ parse_numeric_table tbl msg, e.code ≠ i) ∧
    (msg.length ≤ read4 tbl (32 + 4 * i) →
      ∀ e ∈ parse_numeric_table tbl msg, e.code ≠ i) ∧
    (msg.length ≤ read4 tbl (16 + 4 * i) →
      ∀ e ∈ parse_main_outcome_table tbl msg, e.code ≠ i) ∧
    (msg.length < 4294967296 → read4 tbl (16 + 4 * i) = 4294967295 →
      ∀ e ∈ parse_main_outcome_table tbl msg, e.code ≠ i) := by
  refine ⟨?_, ?_, ?_, ?_, ?_, ?_⟩
  · intro e he
    obtain ⟨k, _, _, _, hlt, _, _, _⟩ :=
      parseNumericFrom_sound tbl msg tbl.length 32 0 e (by omega) he
    exact hlt
  · intro e he
    obtain ⟨k, _, _, _, hlt, _, _⟩ := parseMainGo_sound tbl msg _ 16 0 e he
    exact hlt
  · intro hs e he heq
    obtain ⟨k, hcode, hoff, hsent, _, _, _, _⟩ :=
      parseNumericFrom_sound tbl msg tbl.length 32 0 e (by omega) he
    have hk : k = i := by omega
    exact hsent (by rw [hoff, hk]; exact hs)
  · intro hrange e he heq
    obtain ⟨k, hcode, hoff, _, hlt, _, _, _⟩ :=
      parseNumericFrom_sound tbl msg tbl.length 32 0 e (by omega) he
    have hk : k = i := by omega
    rw [hk] at hoff
    omega
  · intro hrange e he heq
    obtain ⟨k, _, hcode, hoff, hlt, _, _⟩ := parseMainGo_sound tbl msg _ 16 0 e he
    have hk : k = i := by omega
    rw [hk] at hoff
    omega
  · intro hlen hs e he heq
    obtain ⟨k, _, hcode, hoff, hlt, _, _⟩ := parseMainGo_sound tbl msg _ 16 0 e he
    have hk : k = i := by omega
    rw [hk, hs] at hoff
    omega

/-- Claim C3 (amended) witness: with a 3-byte blob, the sentinel slot of
the main table cannot produce the entry that the oversized blob of the
counterexample does produce. -/
theorem c3_witness :
    ¬ OutcomeEntry.mk 0 4294967295 "AAA" ∈
        parse_main_outcome_table tblC3 [65, 65, 65] :=
  fun hm =>
    (c3_amended_pointers tblC3 [65, 65, 65] 0).2.2.2.2.2 (by decide) (by decide)
      (OutcomeEntry.mk 0 4294967295 "AAA") hm rfl

/-- Claim C3 counterexample: with a message blob of 2^32 + 4 bytes, the
main configuration emits an entry for a pointer slot holding the
sentinel `0xFFFFFFFF` (the main loop never compares the value against
the sentinel, only against the blob length). -/
theorem c3_counterexample :
    read4 tblC3 16 = 4294967295 ∧
      parse_main_outcome_table tblC3 blobC3 =
        [OutcomeEntry.mk 0 4294967295 "AAAAA"] := by
  have hlen : blobC3.length = 4294967300 := List.length_replicate 4294967300 65
  have hrep : blobC3 = List.replicate 4294967300 65 := rfl
  have hfe : findEnd blobC3 4294967295 100 = 4294967300 := by
    unfold findEnd
    rw [hlen]
    have hstop : min (4294967295 + 100) 4294967300 = 4294967300 := by norm_num
    rw [hstop]
    refine findEndGo_all_nonzero blobC3 4294967300 _ 4294967295
      (by norm_num) (by omega) ?_
    intro j h1 h2
    rw [hrep, byteAt_replicate _ _ _ h2]
    norm_num
  have hslice : sliceB blobC3 4294967295 4294967300 = List.replicate 5 65 := by
    rw [hrep]
    unfold sliceB
    rw [List.drop_replicate, List.take_replicate, List.map_replicate]
    congr 1
  have hext : extract_message blobC3 4294967295 100 = "AAAAA" := by
    unfold extract_message
    have hno : ¬ blobC3.length ≤ 4294967295 := by rw [hlen]; norm_num
    rw [if_neg hno, hfe, hslice]
    decide
  have hread : read4 tblC3 16 = 4294967295 := by decide
  refine ⟨hread, ?_⟩
  have hcount : min 200 ((tblC3.length - 16) / 4) = 1 := by decide
  rw [parse_main_outcome_table, hcount, parseMainGo_succ,
    parseMainGo_zero, hread, hlen, hext]
  rw [if_pos (by norm_num : (4294967295 : Nat) < 4294967300)]
  rw [if_pos (by decide : ("AAAAA" : String) ≠ "" ∧ 2 < ("AAAAA" : String).length)]
  rfl

end Cotg
